import Mathlib

/-!
Verification development for the LEAN Research dashboard
(`src/Research/dashboard.py`): the `EventBus` publish/subscribe core,
the HTTP request routing, the SSE delivery loop, and the server
lifecycle (`start`).  Python state is embedded shallowly: the bus is a
record of its fields, mutation is explicit state passing, machine
integers are `Nat` (ids only grow, no overflow is reachable in the
claims), and fallible code returns `Except`.
-/

/-! ### Python values and `json.dumps(data, default=str)`

Models the CPython `json` encoder as used at `dashboard.py:61`
(`json.dumps(data, default=str)`).  Per CPython semantics: `default`
is applied only to otherwise unserializable *values* (stringifying
them, so they never fail), while dict keys of an unsupported type
raise `TypeError("keys must be str, int, float, bool or None")`
regardless of `default`.  Strings are emitted quoted with `"` and
`\` escaped (finer escaping of control characters is irrelevant to
every claim, which only inspect success/failure and equality of the
stored text). -/

set_option maxRecDepth 8192

inductive PyKey where
  | kStr (s : String)
  | kInt (n : Int)
  | kTuple
deriving DecidableEq, Repr

inductive PyVal where
  | pyStr (s : String)
  | pyInt (n : Int)
  | pyBool (b : Bool)
  | pyNone
  | pyList (xs : List PyVal)
  | pyDict (kvs : List (PyKey × PyVal))
  | pyObj (repr : String)
deriving Repr

def escChar (c : Char) : List Char :=
  if c = '"' ∨ c = '\\' then ['\\', c] else [c]

def jsonStr (s : String) : String :=
  "\"" ++ String.mk (List.flatten (s.data.map escChar)) ++ "\""

def dumpKey : PyKey → Except String String
  | .kStr s => .ok (jsonStr s)
  | .kInt n => .ok (jsonStr (toString n))
  | .kTuple => .error "keys must be str, int, float, bool or None"

mutual

def dumps : PyVal → Except String String
  | .pyStr s => .ok (jsonStr s)
  | .pyInt n => .ok (toString n)
  | .pyBool b => .ok (if b then "true" else "false")
  | .pyNone => .ok "null"
  | .pyObj r => .ok (jsonStr r)
  | .pyList xs =>
      match dumpsList xs with
      | .ok body => .ok ("[" ++ body ++ "]")
      | .error e => .error e
  | .pyDict kvs =>
      match dumpsDict kvs with
      | .ok body => .ok ("\x7b" ++ body ++ "\x7d")
      | .error e => .error e

def dumpsList : List PyVal → Except String String
  | [] => .ok ""
  | x :: rest =>
      match dumps x, dumpsList rest with
      | .ok a, .ok b => .ok (a ++ (if rest.isEmpty then "" else ", ") ++ b)
      | .error e, _ => .error e
      | _, .error e => .error e

def dumpsDict : List (PyKey × PyVal) → Except String String
  | [] => .ok ""
  | (k, v) :: rest =>
      match dumpKey k, dumps v, dumpsDict rest with
      | .ok ks, .ok vs, .ok b =>
          .ok (ks ++ ": " ++ vs ++ (if rest.isEmpty then "" else ", ") ++ b)
      | .error e, _, _ => .error e
      | .ok _, .error e, _ => .error e
      | .ok _, .ok _, .error e => .error e

end

/-! ### EventBus (`dashboard.py:34-73`)

One event record is the Python tuple `(id, type, data_json)`
(`dashboard.py:40`).  Python `queue.Queue` objects compare by
identity, so each subscriber mailbox is modelled as a channel id
paired with its FIFO contents, and `_subscribers.remove(q)` removes
the first entry with that id.  `nextChan` is the allocator for fresh
channel identities (a model artifact standing for object identity,
carrying no data). -/

abbrev Event := Nat × String × String

def HISTORY_SIZE : Nat := 200

def QUEUE_MAXSIZE : Nat := 512

structure EventBus where
  subscribers : List (Nat × List Event)
  history : List Event
  nextId : Nat
  nextChan : Nat
deriving DecidableEq, Repr

/-- `EventBus.__init__` (`dashboard.py:37-41`). -/
def EventBus.new : EventBus := ⟨[], [], 1, 0⟩

/-- `EventBus.subscribe` (`dashboard.py:43-51`): create a fresh mailbox,
replay every retained record with `eid > last_event_id` into it in
history order, append it to the registry, return it.  (The replaying
`q.put` is a blocking put on a fresh queue of capacity 512; at most
`HISTORY_SIZE = 200` records are replayed, so it never blocks and is a
plain append.) -/
def EventBus.subscribe (bus : EventBus) (last_event_id : Nat) : EventBus × Nat :=
  let q := bus.history.filter (fun e => last_event_id < e.1)
  let c := bus.nextChan
  ({ bus with subscribers := bus.subscribers ++ [(c, q)], nextChan := c + 1 }, c)

/-- First-occurrence removal, as Python `list.remove` with identity
equality; removing an absent channel is a no-op (the `ValueError` is
swallowed, `dashboard.py:55-58`). -/
def removeFirst (c : Nat) : List (Nat × List Event) → List (Nat × List Event)
  | [] => []
  | p :: ps => if p.1 = c then ps else p :: removeFirst c ps

/-- `EventBus.unsubscribe` (`dashboard.py:53-58`). -/
def EventBus.unsubscribe (bus : EventBus) (c : Nat) : EventBus :=
  { bus with subscribers := removeFirst c bus.subscribers }

/-- The locked body of `EventBus.push` (`dashboard.py:62-73`): stamp the
next id, append to history, trim to the most recent `HISTORY_SIZE`
(`self._history[-_HISTORY_SIZE:]`), then `put_nowait` into every
subscriber, skipping full mailboxes (`queue.Full` is swallowed). -/
def EventBus.pushRecord (bus : EventBus) (event_type : String) (data_json : String) : EventBus :=
  let eid := bus.nextId
  let h := bus.history ++ [(eid, event_type, data_json)]
  let h2 := if HISTORY_SIZE < h.length then h.drop (h.length - HISTORY_SIZE) else h
  { bus with
    nextId := eid + 1
    history := h2
    subscribers := bus.subscribers.map (fun p =>
      (p.1, if p.2.length < QUEUE_MAXSIZE then p.2 ++ [(eid, event_type, data_json)] else p.2)) }

/-- `EventBus.push` (`dashboard.py:60-73`): `json.dumps(data, default=str)`
runs first, outside the lock; if it raises, the exception propagates to
the caller and the bus state is untouched. -/
def EventBus.push (bus : EventBus) (event_type : String) (data : PyVal) : Except String EventBus :=
  match dumps data with
  | .ok data_json => .ok (bus.pushRecord event_type data_json)
  | .error e => .error e

/-- `push_event` (`dashboard.py:502-504`), the module-level producer API. -/
def push_event (event_type : String) (data : PyVal) (bus : EventBus) : Except String EventBus :=
  bus.push event_type data

/-- The mailbox currently registered for channel `c`, if any. -/
def EventBus.mailbox (bus : EventBus) (c : Nat) : Option (List Event) :=
  (bus.subscribers.find? (fun p => p.1 == c)).map (fun p => p.2)

/-- `queue.get` by the delivery loop: pop the front of channel `c`'s
mailbox (the dequeued record itself plays no role in the claims). -/
def EventBus.dequeue (bus : EventBus) (c : Nat) : EventBus :=
  { bus with subscribers := bus.subscribers.map (fun p =>
      if p.1 = c then (p.1, p.2.drop 1) else p) }

/-! ### Traces of bus operations

Every interleaving of the four operations any thread can perform on
the shared bus: a producer `push` (which assigns no id and changes
nothing when `json.dumps` raises), a delivery loop joining
(`subscribe`), leaving (`unsubscribe`), or draining one record
(`dequeue`).  `runFull` also accumulates the list of records the bus
actually stamped and published, i.e. the append-only log of which
`history` is the trimmed window. -/

inductive TOp where
  | push (event_type : String) (data : PyVal)
  | sub (last_event_id : Nat)
  | unsub (c : Nat)
  | deq (c : Nat)

def stepFull : EventBus × List Event → TOp → EventBus × List Event
  | (bus, L), .push ty d =>
      match dumps d with
      | .ok j => (bus.pushRecord ty j, L ++ [(bus.nextId, ty, j)])
      | .error _ => (bus, L)
  | (bus, L), .sub k => ((bus.subscribe k).1, L)
  | (bus, L), .unsub c => (bus.unsubscribe c, L)
  | (bus, L), .deq c => (bus.dequeue c, L)

def runFull (ops : List TOp) : EventBus × List Event :=
  ops.foldl stepFull (EventBus.new, ([] : List Event))

/-- A bus state an actual execution can be in: the result of some
finite interleaving of the four operations starting from
`EventBus.new`. -/
def Reachable (bus : EventBus) : Prop := ∃ ops, (runFull ops).1 = bus

/-! ### Request routing (`_DashboardHandler.do_GET`, `dashboard.py:408-414`)

Paths are the raw request target (`self.path`, which includes any
query string), modelled as `List Char`.  The handler serves the HTML
page for exactly `"/"` and `"/index.html"`, the SSE stream for any
path `startswith("/events")`, and `404 NOT_FOUND` otherwise. -/

inductive Route where
  | page
  | eventStream
  | notFound
deriving DecidableEq, Repr

/-- Python `str.startswith`. -/
def startsWithChars : List Char → List Char → Bool
  | _, [] => true
  | [], _ :: _ => false
  | c :: cs, d :: ds => c == d && startsWithChars cs ds

def do_GET (path : List Char) : Route :=
  if path = "/".data ∨ path = "/index.html".data then Route.page
  else if startsWithChars path "/events".data then Route.eventStream
  else Route.notFound

/-- Modelled from the spec: the event stream endpoint is
`GET /events[?last_event_id=N]` — the exact path `/events`, optionally
followed by a query string.  This is the spec-side notion of "the
event stream endpoint", for comparison against the code's routing. -/
def specEventStreamPath (path : List Char) : Bool :=
  path == "/events".data || startsWithChars path "/events?".data

/-! ### SSE delivery loop (`_DashboardHandler._serve_sse`, `dashboard.py:425-465`)

The loop body is driven by a schedule of externally-determined
outcomes, one per iteration: a record arrives from the mailbox
(`sub.get` returns; the subsequent data write succeeds or raises
`BrokenPipeError`/`ConnectionResetError`, which is caught and breaks
the loop), `queue.Empty` fires after the 15 s timeout (the keepalive
write succeeds or raises the same two, caught, break), a concurrent
producer pushes a record while the loop waits, or some other exception
is raised by an iteration (not caught by the two handlers, so it
propagates out of the `while`).  Whatever ends the loop, control
passes through the `finally:` block, which unsubscribes the channel
(`dashboard.py:464-465`). -/

inductive SSEStep where
  | pub (event_type : String) (data_json : String)
  | recv (writeOk : Bool)
  | timedOut (writeOk : Bool)
  | raiseOther

inductive ExitReason where
  | disconnected
  | raised
deriving DecidableEq, Repr

def sseLoop (c : Nat) : List SSEStep → EventBus → EventBus × Option ExitReason
  | [], bus => (bus, none)
  | step :: rest, bus =>
      match step with
      | .pub ty j => sseLoop c rest (bus.pushRecord ty j)
      | .recv true => sseLoop c rest (bus.dequeue c)
      | .recv false => (bus.dequeue c, some .disconnected)
      | .timedOut true => sseLoop c rest bus
      | .timedOut false => (bus, some .disconnected)
      | .raiseOther => (bus, some .raised)

/-- `_serve_sse` after the response headers: subscribe, run the
delivery loop, and on any loop exit run the `finally:` unsubscribe.
Returns the final bus state, the exit reason (`none` while the
schedule ran out with the loop still live — no exit, so the `finally`
has not run yet), and the loop's channel id. -/
def serve_sse (sched : List SSEStep) (last_event_id : Nat) (bus : EventBus) :
    EventBus × Option ExitReason × Nat :=
  let r := bus.subscribe last_event_id
  let l := sseLoop r.2 sched r.1
  match l.2 with
  | some reason => (l.1.unsubscribe r.2, some reason, r.2)
  | none => (l.1, none, r.2)

/-! ### Server lifecycle (`start`, `dashboard.py:476-499`)

`_server`/`_port` are the module globals; `bindOk` is the environment
(which TCP ports a bind would succeed on).  Binding, starting the
serve thread and scheduling the browser timer are recorded as effects
so the idempotence claim ("no side effects on second call") and the
bind-address claim are statable.  The code constructs
`_ThreadedHTTPServer(("127.0.0.1", port), ...)` — a bind attempt on
host `"127.0.0.1"` — and on success stores the server, starts the
serve thread, schedules the browser-open timer and returns the port;
on `OSError` it continues with the next port; if the loop drains the
whole range it returns `None`. -/

structure ServerState where
  server : Option Nat
  port : Nat
deriving DecidableEq, Repr

inductive Effect where
  | bindAttempt (host : String) (port : Nat)
  | listenerOpened (host : String) (port : Nat)
  | serveThreadStarted (port : Nat)
  | browserTimerScheduled (port : Nat)
deriving DecidableEq, Repr

def startScan (bindOk : Nat → Bool) : List Nat → ServerState → ServerState × Option Nat × List Effect
  | [], s => (s, none, [])
  | p :: ps, s =>
      if bindOk p then
        (⟨some p, p⟩, some p,
          [.bindAttempt "127.0.0.1" p, .listenerOpened "127.0.0.1" p,
           .serveThreadStarted p, .browserTimerScheduled p])
      else
        let r := startScan bindOk ps s
        (r.1, r.2.1, .bindAttempt "127.0.0.1" p :: r.2.2)

/-- `start(port_start, port_end)` (`dashboard.py:476-499`): if already
started, return the stored port (no effects); otherwise scan
`range(port_start, port_end + 1)` ascending. -/
def start (bindOk : Nat → Bool) (port_start port_end : Nat) (s : ServerState) :
    ServerState × Option Nat × List Effect :=
  if s.server.isSome then (s, some s.port, [])
  else startScan bindOk (List.range' port_start (port_end + 1 - port_start)) s

/-! ### The bus invariant

`L` is the append-only log of every record the bus has stamped and
published on a trace; the invariant ties the bus fields to it:
`nextId` counts the log, the logged ids are exactly `1, 2, ...` in
order, `history` is the most-recent-`HISTORY_SIZE` window of the log,
registered channel ids are fresh-bounded and distinct, and every
mailbox only holds records with already-assigned ids. -/

structure BusInv (bus : EventBus) (L : List Event) : Prop where
  next_eq : bus.nextId = L.length + 1
  ids_eq : L.map (fun e => e.1) = List.range' 1 L.length
  hist_eq : bus.history = L.drop (L.length - HISTORY_SIZE)
  chan_lt : ∀ p ∈ bus.subscribers, p.1 < bus.nextChan
  chan_nodup : (bus.subscribers.map (fun p => p.1)).Nodup
  mail_lt : ∀ p ∈ bus.subscribers, ∀ e ∈ p.2, e.1 < bus.nextId

/-! ### Concrete scenarios used by witnesses and counterexamples -/

/-- The bus right after `subscribe(0)` on a fresh bus: one registered
channel (id 0) with an empty mailbox. -/
def subOnce : EventBus := (EventBus.new.subscribe 0).1

/-- `n` further pushes of the same record type and payload, with the
single subscriber never draining its mailbox. -/
def iterPush : Nat → EventBus → EventBus
  | 0, bus => bus
  | n + 1, bus => (iterPush n bus).pushRecord "t" "null"

/-- A bus with one full mailbox (channel 0, 512 pending records) and
one empty mailbox (channel 1). -/
def fullBus : EventBus :=
  ⟨[(0, List.replicate 512 (0, "t", "0")), (1, [])], [], 1, 2⟩

/-- A trace of `m` identical successful pushes. -/
def pushTrace (m : Nat) : List TOp := List.replicate m (TOp.push "t" PyVal.pyNone)

/-! ### List helper lemmas -/

theorem drop_range2 (s n i : Nat) :
    (List.range' s n).drop i = List.range' (s + i) (n - i) := by
  by_cases h : i ≤ n
  · have hsplit : List.range' s n = List.range' s i ++ List.range' (s + i) (n - i) := by
      rw [List.range'_append_1]
      congr 1
      omega
    rw [hsplit, List.drop_left' (by simp)]
  · rw [List.drop_eq_nil_iff.2 (by simp; omega)]
    have h0 : n - i = 0 := by omega
    rw [h0]
    rfl

theorem removeFirst_sublist (c : Nat) : ∀ l, List.Sublist (removeFirst c l) l := by
  intro l
  induction l with
  | nil => exact List.Sublist.refl _
  | cons p ps ih =>
      unfold removeFirst
      by_cases h : p.1 = c
      · simp only [h, if_pos rfl]
        exact List.sublist_cons_self _ _
      · simp only [if_neg h]
        exact ih.cons₂ _

theorem map_fst_removeFirst (c : Nat) :
    ∀ (l : List (Nat × List Event)) (xs : List Nat),
      l.map (fun p => p.1) = xs ++ [c] → c ∉ xs →
      (removeFirst c l).map (fun p => p.1) = xs := by
  intro l
  induction l with
  | nil =>
      intro xs h _
      cases xs <;> simp at h
  | cons p ps ih =>
      intro xs h hc
      cases xs with
      | nil =>
          simp only [List.map_cons, List.nil_append, List.cons_eq_cons] at h
          unfold removeFirst
          rw [if_pos h.1, h.2]
      | cons x xs' =>
          simp only [List.map_cons, List.cons_append, List.cons_eq_cons] at h
          have hxc : x ≠ c := by
            intro hx
            apply hc
            rw [hx]
            exact List.mem_cons_self _ _
          have hne : p.1 ≠ c := h.1 ▸ hxc
          unfold removeFirst
          rw [if_neg hne, List.map_cons, h.1,
            ih xs' h.2 (fun hx => hc (List.mem_cons_of_mem _ hx))]

theorem map_fst_pushRecord (bus : EventBus) (ty j : String) :
    (bus.pushRecord ty j).subscribers.map (fun p => p.1)
      = bus.subscribers.map (fun p => p.1) := by
  unfold EventBus.pushRecord
  simp [List.map_map]

theorem map_fst_dequeue (bus : EventBus) (c : Nat) :
    (bus.dequeue c).subscribers.map (fun p => p.1)
      = bus.subscribers.map (fun p => p.1) := by
  unfold EventBus.dequeue
  simp only [List.map_map]
  apply List.map_congr_left
  intro p _
  by_cases h : p.1 = c <;> simp [h]

theorem find?_map_fst (g : Nat × List Event → Nat × List Event)
    (hg : ∀ p, (g p).1 = p.1) (c : Nat) :
    ∀ l : List (Nat × List Event),
      (l.map g).find? (fun p => p.1 == c) = (l.find? (fun p => p.1 == c)).map g := by
  intro l
  induction l with
  | nil => rfl
  | cons p ps ih =>
      by_cases h : p.1 = c
      · rw [List.map_cons,
          List.find?_cons_of_pos _ (by simp [hg p, h]),
          List.find?_cons_of_pos _ (by simp [h])]
        rfl
      · rw [List.map_cons,
          List.find?_cons_of_neg _ (by simp [hg p, h]),
          List.find?_cons_of_neg _ (by simp [h]), ih]

/-- Publishing updates channel `c`'s mailbox by appending the new
record when it has spare capacity and leaving it alone when full. -/
theorem mailbox_pushRecord (bus : EventBus) (ty j : String) (c : Nat) :
    (bus.pushRecord ty j).mailbox c =
      (bus.mailbox c).map (fun m =>
        if m.length < QUEUE_MAXSIZE then m ++ [(bus.nextId, ty, j)] else m) := by
  show Option.map (fun p => p.2)
      (List.find? (fun p => p.1 == c)
        (bus.subscribers.map (fun p =>
          (p.1, if p.2.length < QUEUE_MAXSIZE then p.2 ++ [(bus.nextId, ty, j)] else p.2))))
    = Option.map (fun m => if m.length < QUEUE_MAXSIZE then m ++ [(bus.nextId, ty, j)] else m)
      (Option.map (fun p => p.2) (List.find? (fun p => p.1 == c) bus.subscribers))
  rw [find?_map_fst (fun p =>
      (p.1, if p.2.length < QUEUE_MAXSIZE then p.2 ++ [(bus.nextId, ty, j)] else p.2))
    (fun p => rfl) c bus.subscribers]
  cases bus.subscribers.find? (fun p => p.1 == c) <;> rfl

/-- The mailbox `subscribe` returns is found in the registry and holds
exactly the replayed records, provided no registered channel already
carries the fresh id (true in every reachable state). -/
theorem mailbox_subscribe (bus : EventBus) (k : Nat)
    (h : ∀ p ∈ bus.subscribers, p.1 < bus.nextChan) :
    (bus.subscribe k).1.mailbox (bus.subscribe k).2 =
      some (bus.history.filter (fun e => k < e.1)) := by
  unfold EventBus.subscribe EventBus.mailbox
  simp only [List.find?_append]
  have hnone : bus.subscribers.find? (fun p => p.1 == bus.nextChan) = none := by
    rw [List.find?_eq_none]
    intro p hp
    simp only [beq_iff_eq]
    exact Nat.ne_of_lt (h p hp)
  rw [hnone]
  simp

/-! ### Preservation of the bus invariant -/

theorem BusInv.id_lt {bus : EventBus} {L : List Event} (h : BusInv bus L)
    {e : Event} (he : e ∈ L) : e.1 < bus.nextId := by
  have hm : e.1 ∈ L.map (fun e => e.1) := List.mem_map_of_mem _ he
  rw [h.ids_eq, List.mem_range'_1] at hm
  rw [h.next_eq]
  omega

theorem businv_push (bus : EventBus) (L : List Event) (ty j : String)
    (h : BusInv bus L) : BusInv (bus.pushRecord ty j) (L ++ [(bus.nextId, ty, j)]) := by
  obtain ⟨h1, h2, h3, h4, h5, h6⟩ := h
  have hsubs : (bus.pushRecord ty j).subscribers = bus.subscribers.map (fun p =>
      (p.1, if p.2.length < QUEUE_MAXSIZE then p.2 ++ [(bus.nextId, ty, j)] else p.2)) := rfl
  have hnext : (bus.pushRecord ty j).nextId = bus.nextId + 1 := rfl
  have hhist : (bus.pushRecord ty j).history =
      (if HISTORY_SIZE < (bus.history ++ [(bus.nextId, ty, j)]).length
        then (bus.history ++ [(bus.nextId, ty, j)]).drop
          ((bus.history ++ [(bus.nextId, ty, j)]).length - HISTORY_SIZE)
        else bus.history ++ [(bus.nextId, ty, j)]) := rfl
  have hlen : bus.history.length = L.length - (L.length - HISTORY_SIZE) := by
    rw [h3]; simp
  have hH : HISTORY_SIZE = 200 := rfl
  constructor
  · rw [hnext, h1]; simp
  · rw [List.map_append, h2, List.map_cons, List.map_nil, h1, List.length_append,
      List.length_cons, List.length_nil, List.range'_concat]
    simp
    omega
  · have happ : bus.history ++ [(bus.nextId, ty, j)] =
        (L ++ [(bus.nextId, ty, j)]).drop (L.length - HISTORY_SIZE) := by
      rw [h3, List.drop_append_of_le_length (by omega)]
    have hl : (bus.history ++ [(bus.nextId, ty, j)]).length
        = L.length - (L.length - HISTORY_SIZE) + 1 := by simp [hlen]
    rw [hhist, hl, happ]
    by_cases hc : HISTORY_SIZE < L.length - (L.length - HISTORY_SIZE) + 1
    · rw [if_pos hc, List.drop_drop]
      congr 1
      simp only [List.length_append, List.length_cons, List.length_nil]
      omega
    · rw [if_neg hc]
      congr 1
      simp only [List.length_append, List.length_cons, List.length_nil]
      omega
  · intro p hp
    rw [hsubs] at hp
    obtain ⟨q, hq, rfl⟩ := List.mem_map.1 hp
    exact h4 q hq
  · rw [map_fst_pushRecord]; exact h5
  · intro p hp e he
    rw [hnext]
    rw [hsubs] at hp
    obtain ⟨q, hq, rfl⟩ := List.mem_map.1 hp
    by_cases hc : q.2.length < QUEUE_MAXSIZE
    · rw [if_pos hc] at he
      rcases List.mem_append.1 he with h' | h'
      · exact Nat.lt_succ_of_lt (h6 q hq e h')
      · simp at h'
        rw [h']
        omega
    · rw [if_neg hc] at he
      exact Nat.lt_succ_of_lt (h6 q hq e he)

theorem businv_sub (bus : EventBus) (L : List Event) (k : Nat)
    (h : BusInv bus L) : BusInv (bus.subscribe k).1 L := by
  obtain ⟨h1, h2, h3, h4, h5, h6⟩ := h
  have hsubs : (bus.subscribe k).1.subscribers =
      bus.subscribers ++ [(bus.nextChan, bus.history.filter (fun e => k < e.1))] := rfl
  have hchan : (bus.subscribe k).1.nextChan = bus.nextChan + 1 := rfl
  refine ⟨h1, h2, h3, ?_, ?_, ?_⟩
  · intro p hp
    rw [hchan]
    rw [hsubs] at hp
    rcases List.mem_append.1 hp with h' | h'
    · exact Nat.lt_succ_of_lt (h4 p h')
    · simp at h'
      rw [h']
      exact Nat.lt_succ_self _
  · rw [hsubs, List.map_append, List.nodup_append]
    refine ⟨h5, List.nodup_singleton _, ?_⟩
    intro a ha hb
    simp only [List.map_cons, List.map_nil, List.mem_singleton] at hb
    obtain ⟨q, hq, rfl⟩ := List.mem_map.1 ha
    exact absurd (h4 q hq) (by rw [hb]; omega)
  · intro p hp e he
    rw [hsubs] at hp
    rcases List.mem_append.1 hp with h' | h'
    · exact h6 p h' e he
    · simp at h'
      rw [h'] at he
      have he2 : e ∈ bus.history := List.mem_of_mem_filter he
      rw [h3] at he2
      exact BusInv.id_lt ⟨h1, h2, h3, h4, h5, h6⟩ (List.drop_subset _ _ he2)

theorem businv_unsub (bus : EventBus) (L : List Event) (c : Nat)
    (h : BusInv bus L) : BusInv (bus.unsubscribe c) L := by
  obtain ⟨h1, h2, h3, h4, h5, h6⟩ := h
  have hsub : List.Sublist ((bus.unsubscribe c).subscribers) bus.subscribers :=
    removeFirst_sublist c _
  refine ⟨h1, h2, h3, ?_, ?_, ?_⟩
  · intro p hp
    exact h4 p (hsub.subset hp)
  · exact List.Nodup.sublist (hsub.map _) h5
  · intro p hp
    exact h6 p (hsub.subset hp)

theorem businv_deq (bus : EventBus) (L : List Event) (c : Nat)
    (h : BusInv bus L) : BusInv (bus.dequeue c) L := by
  obtain ⟨h1, h2, h3, h4, h5, h6⟩ := h
  have hsubs : (bus.dequeue c).subscribers = bus.subscribers.map (fun p =>
      if p.1 = c then (p.1, p.2.drop 1) else p) := rfl
  refine ⟨h1, h2, h3, ?_, ?_, ?_⟩
  · intro p hp
    rw [hsubs] at hp
    obtain ⟨q, hq, rfl⟩ := List.mem_map.1 hp
    have hfst : (if q.1 = c then (q.1, q.2.drop 1) else q).1 = q.1 := by
      split <;> rfl
    rw [hfst]
    exact h4 q hq
  · rw [map_fst_dequeue]; exact h5
  · intro p hp e he
    rw [hsubs] at hp
    obtain ⟨q, hq, rfl⟩ := List.mem_map.1 hp
    by_cases hc : q.1 = c
    · rw [if_pos hc] at he
      exact h6 q hq e (List.drop_subset _ _ he)
    · rw [if_neg hc] at he
      exact h6 q hq e he

theorem stepFull_inv (op : TOp) (s : EventBus × List Event) (h : BusInv s.1 s.2) :
    BusInv (stepFull s op).1 (stepFull s op).2 := by
  obtain ⟨bus, L⟩ := s
  cases op with
  | push ty d =>
      cases hd : dumps d with
      | ok j => simpa [stepFull, hd] using businv_push bus L ty j h
      | error e => simpa [stepFull, hd] using h
  | sub k => exact businv_sub bus L k h
  | unsub c => exact businv_unsub bus L c h
  | deq c => exact businv_deq bus L c h

theorem runFull_inv (ops : List TOp) : BusInv (runFull ops).1 (runFull ops).2 := by
  suffices h : ∀ (l : List TOp) (s : EventBus × List Event),
      BusInv s.1 s.2 → BusInv (l.foldl stepFull s).1 (l.foldl stepFull s).2 by
    exact h ops (EventBus.new, [])
      ⟨rfl, rfl, rfl, by simp [EventBus.new], by simp [EventBus.new], by simp [EventBus.new]⟩
  intro l
  induction l with
  | nil => intro s h; exact h
  | cons op rest ih =>
      intro s h
      exact ih _ (stepFull_inv op s h)

/-! ### Consequences of the invariant -/

theorem hist_len (bus : EventBus) (L : List Event) (h : BusInv bus L) :
    bus.history.length = L.length - (L.length - HISTORY_SIZE) := by
  rw [h.hist_eq]; simp

theorem hist_ids (bus : EventBus) (L : List Event) (h : BusInv bus L) :
    bus.history.map (fun e => e.1)
      = List.range' (1 + (L.length - HISTORY_SIZE)) (L.length - (L.length - HISTORY_SIZE)) := by
  rw [h.hist_eq, List.map_drop, h.ids_eq, drop_range2]

/-- On a contiguous ascending id range that already starts above `k`,
the replay filter keeps everything. -/
theorem filter_gt_all (k : Nat) : ∀ (t b : Nat), k < b →
    (List.range' b t).filter (fun i => decide (k < i)) = List.range' b t := by
  intro t
  induction t with
  | zero => intro b _; rfl
  | succ t ih =>
      intro b hb
      rw [List.range'_succ, List.filter_cons_of_pos (by simpa using hb),
        ih (b + 1) (by omega)]

/-- The replay filter of a contiguous ascending id range is again a
contiguous ascending range: no duplicate, no gap, ascending order. -/
theorem filter_gt_range' (k : Nat) : ∀ (t b : Nat), ∃ b2 t2,
    (List.range' b t).filter (fun i => decide (k < i)) = List.range' b2 t2 := by
  intro t
  induction t with
  | zero => intro b; exact ⟨0, 0, rfl⟩
  | succ t ih =>
      intro b
      by_cases h : k < b
      · exact ⟨b, t + 1, filter_gt_all k (t + 1) b h⟩
      · rw [List.range'_succ, List.filter_cons_of_neg (by simpa using h)]
        exact ih (b + 1)

/-- History trimming only ever removes from the oldest (front) end:
the post-push history is a suffix of the appended history. -/
theorem pushRecord_history_suffix (bus : EventBus) (ty j : String) :
    (bus.pushRecord ty j).history <:+ bus.history ++ [(bus.nextId, ty, j)] := by
  have hhist : (bus.pushRecord ty j).history =
      (if HISTORY_SIZE < (bus.history ++ [(bus.nextId, ty, j)]).length
        then (bus.history ++ [(bus.nextId, ty, j)]).drop
          ((bus.history ++ [(bus.nextId, ty, j)]).length - HISTORY_SIZE)
        else bus.history ++ [(bus.nextId, ty, j)]) := rfl
  rw [hhist]
  split
  · exact List.drop_suffix _ _
  · exact List.suffix_refl _

theorem runFull_snoc (ops : List TOp) (op : TOp) :
    runFull (ops ++ [op]) = stepFull (runFull ops) op := by
  unfold runFull
  rw [List.foldl_append]
  rfl

/-- A trace of `m` identical successful pushes logs exactly `m` records. -/
theorem runFull_replicate_len (m : Nat) :
    ((runFull (pushTrace m)).2).length = m := by
  induction m with
  | zero => rfl
  | succ m ih =>
      have hsnoc : pushTrace (m + 1) = pushTrace m ++ [TOp.push "t" PyVal.pyNone] :=
        List.replicate_succ' m _
      rw [hsnoc, runFull_snoc]
      have hstep : stepFull (runFull (pushTrace m)) (TOp.push "t" PyVal.pyNone)
          = ((runFull (pushTrace m)).1.pushRecord "t" "null",
             (runFull (pushTrace m)).2
               ++ [((runFull (pushTrace m)).1.nextId, "t", "null")]) := rfl
      rw [hstep]
      simp [ih]

/-! ### Claim theorems -/

/-- Claim C2: on every trace of operations on one bus, after any
publish `len(history) ≤ 200`; the history always equals the
most-recent-200 window of the full published log (so once
`total_published > 200` it holds exactly the most recent 200 records
and the oldest retained id is `total_published - 200 + 1`); retained
ids are a contiguous ascending range; and each push only trims from
the oldest end (the post-push history is a suffix of the appended
history). -/
theorem bounded_history_claim (ops : List TOp) :
    (runFull ops).1.history.length ≤ 200
    ∧ (runFull ops).1.history = (runFull ops).2.drop ((runFull ops).2.length - 200)
    ∧ (runFull ops).1.history.map (fun e => e.1)
        = List.range' (1 + ((runFull ops).2.length - 200))
            ((runFull ops).2.length - ((runFull ops).2.length - 200))
    ∧ (200 < (runFull ops).2.length →
        (runFull ops).1.history.length = 200
        ∧ ((runFull ops).1.history.map (fun e => e.1)).head?
            = some ((runFull ops).2.length - 200 + 1))
    ∧ (∀ (b : EventBus) (ty j : String),
        (b.pushRecord ty j).history <:+ b.history ++ [(b.nextId, ty, j)]) := by
  have h := runFull_inv ops
  have hH : HISTORY_SIZE = 200 := rfl
  have hlen := hist_len _ _ h
  have hids := hist_ids _ _ h
  rw [hH] at hlen hids
  refine ⟨?_, ?_, hids, ?_, ?_⟩
  · rw [hlen]; omega
  · have h2 := h.hist_eq
    rw [hH] at h2
    exact h2
  · intro hgt
    refine ⟨by rw [hlen]; omega, ?_⟩
    rw [hids, List.head?_range', if_neg (by omega)]
    congr 1
    omega
  · exact pushRecord_history_suffix

/-- Witness for the claim-C2 theorem at a trace of 201 pushes; the
`200 < total_published` hypothesis is discharged via the
replicate-length lemma. -/
theorem bounded_history_claim_witness :
    200 < (runFull (pushTrace 201)).2.length
    ∧ ((runFull (pushTrace 201)).1.history.length = 200
        ∧ ((runFull (pushTrace 201)).1.history.map (fun e => e.1)).head?
            = some ((runFull (pushTrace 201)).2.length - 200 + 1)) := by
  have hlt : 200 < (runFull (pushTrace 201)).2.length := by
    rw [runFull_replicate_len]
    omega
  exact ⟨hlt, (bounded_history_claim (pushTrace 201)).2.2.2.1 hlt⟩

/-- Claim C3: on every trace of operations on one bus, the ids the
bus assigns to successful pushes are exactly `1, 2, 3, ...` in order
(the `k`-th logged record carries id `k`), strictly increasing and
gap-free, and no id is ever reused (the assigned ids are pairwise
distinct, trimming notwithstanding).  The id comes from the bus's
`_next_id` counter: a `TOp.push` carries only the producer's type tag
and payload, never an id. -/
theorem ids_gapfree_claim (ops : List TOp) :
    (runFull ops).2.map (fun e => e.1) = List.range' 1 (runFull ops).2.length
    ∧ (∀ i, i < (runFull ops).2.length →
        ((runFull ops).2[i]?).map (fun e => e.1) = some (i + 1))
    ∧ ((runFull ops).2.map (fun e => e.1)).Nodup := by
  have h := runFull_inv ops
  refine ⟨h.ids_eq, ?_, ?_⟩
  · intro i hi
    have h1 : ((runFull ops).2.map (fun e => e.1))[i]? = some (1 + 1 * i) := by
      rw [h.ids_eq]
      exact List.getElem?_range' 1 1 (by simpa using hi)
    rw [List.getElem?_map] at h1
    rw [h1]
    congr 1
    omega
  · rw [h.ids_eq]
    exact List.nodup_range' 1 _

/-- Witness for the claim-C3 theorem at a trace of 3 pushes: the
third logged record carries id 3. -/
theorem ids_gapfree_claim_witness :
    2 < (runFull (pushTrace 3)).2.length
    ∧ ((runFull (pushTrace 3)).2[2]?).map (fun e => e.1) = some 3 := by
  have hlt : 2 < (runFull (pushTrace 3)).2.length := by
    rw [runFull_replicate_len]
    omega
  exact ⟨hlt, (ids_gapfree_claim (pushTrace 3)).2.1 2 hlt⟩

/-- Mailbox and id counter after `n` undreained pushes following a
single `subscribe(0)` on a fresh bus: the mailbox holds the first
`min n 512` records and then saturates. -/
theorem iterPush_subs (n : Nat) :
    (iterPush n subOnce).subscribers
      = [(0, (List.range' 1 (min n 512)).map (fun i => (i, "t", "null")))]
    ∧ (iterPush n subOnce).nextId = n + 1 := by
  induction n with
  | zero => exact ⟨rfl, rfl⟩
  | succ n ih =>
      obtain ⟨hs, hn⟩ := ih
      have hsubs : (iterPush (n + 1) subOnce).subscribers
          = ((iterPush n subOnce).subscribers).map (fun p =>
              (p.1, if p.2.length < QUEUE_MAXSIZE
                then p.2 ++ [((iterPush n subOnce).nextId, "t", "null")] else p.2)) := rfl
      have hnext : (iterPush (n + 1) subOnce).nextId = (iterPush n subOnce).nextId + 1 := rfl
      have hQ : QUEUE_MAXSIZE = 512 := rfl
      refine ⟨?_, by rw [hnext, hn]⟩
      rw [hsubs, hs, hn]
      simp only [List.map_cons, List.map_nil, List.length_map, List.length_range']
      by_cases hc : n < 512
      · rw [if_pos (by omega)]
        have hmin1 : min n 512 = n := by omega
        have hmin2 : min (n + 1) 512 = n + 1 := by omega
        have h11 : 1 + 1 * n = n + 1 := by omega
        rw [hmin1, hmin2, List.range'_concat, h11, List.map_append]
        rfl
      · rw [if_neg (by omega)]
        have hmin1 : min n 512 = 512 := by omega
        have hmin2 : min (n + 1) 512 = 512 := by omega
        rw [hmin1, hmin2]

/-- Counterexample to claim C1 as stated: after `subscribe(0)` on a
fresh bus which is never drained, the 513th subsequent publish is
assigned (the id counter reaches 514) but is not delivered to the
subscribed channel — its mailbox is full at 512 pending records, so
the record `(513, "t", "null")` is dropped, contradicting "every
subsequent publish is delivered to it exactly once". -/
theorem replay_claim_counterexample :
    (iterPush 513 subOnce).nextId = 514
    ∧ (iterPush 513 subOnce).mailbox 0
        = some ((List.range' 1 512).map (fun i => (i, "t", "null")))
    ∧ (513, "t", "null") ∉ (List.range' 1 512).map (fun i : Nat => (i, "t", "null")) := by
  obtain ⟨hs, hn⟩ := iterPush_subs 513
  have hmin : min 513 512 = 512 := by omega
  rw [hmin] at hs
  refine ⟨hn, ?_, ?_⟩
  · unfold EventBus.mailbox
    rw [hs]
    simp
  · intro hmem
    rw [List.mem_map] at hmem
    obtain ⟨i, hi, hgi⟩ := hmem
    have hieq : i = 513 := by
      have := congrArg (fun e : Event => e.1) hgi
      simpa using this
    rw [hieq, List.mem_range'_1] at hi
    omega

/-- Claim C1 (amended): in every reachable bus state, `subscribe(k)`
returns a channel whose mailbox holds exactly the retained history
records with id > k, in ascending order with no duplicate and no gap
(the ids form a contiguous range), and the channel is registered; a
subsequent publish is delivered to a registered channel exactly once
whenever its mailbox has spare capacity at publish time (and is
dropped for that channel when the mailbox is full — see the
counterexample for why the unconditional form fails). -/
theorem replay_claim (bus : EventBus) (k : Nat) (h : Reachable bus) :
    (bus.subscribe k).1.mailbox (bus.subscribe k).2
        = some (bus.history.filter (fun e => k < e.1))
    ∧ (∃ b2 t2, (bus.history.filter (fun e => k < e.1)).map (fun e => e.1)
        = List.range' b2 t2)
    ∧ (bus.subscribe k).2 ∈ (bus.subscribe k).1.subscribers.map (fun p => p.1)
    ∧ (∀ (bus2 : EventBus) (c : Nat) (m : List Event) (ty j : String),
        bus2.mailbox c = some m → (∀ e ∈ m, e.1 < bus2.nextId) →
        (bus2.pushRecord ty j).mailbox c
            = some (if m.length < 512 then m ++ [(bus2.nextId, ty, j)] else m)
        ∧ (m.length < 512 →
            (m ++ [(bus2.nextId, ty, j)]).count (bus2.nextId, ty, j) = 1)) := by
  obtain ⟨ops, rfl⟩ := h
  have hinv := runFull_inv ops
  refine ⟨?_, ?_, ?_, ?_⟩
  · exact mailbox_subscribe _ k hinv.chan_lt
  · have h1 : ((runFull ops).1.history.filter (fun e => k < e.1)).map (fun e => e.1)
        = ((runFull ops).1.history.map (fun e => e.1)).filter (fun i => decide (k < i)) := by
      rw [List.filter_map]
      rfl
    rw [h1, hist_ids _ _ hinv]
    exact filter_gt_range' k _ _
  · have hsubs : ((runFull ops).1.subscribe k).1.subscribers
        = (runFull ops).1.subscribers
          ++ [((runFull ops).1.nextChan, (runFull ops).1.history.filter (fun e => k < e.1))] := rfl
    have h2 : ((runFull ops).1.subscribe k).2 = (runFull ops).1.nextChan := rfl
    rw [hsubs, h2, List.map_append]
    simp
  · intro bus2 c m ty j hm hfresh
    constructor
    · rw [mailbox_pushRecord, hm]
      rfl
    · intro hlen
      rw [List.count_append,
        List.count_eq_zero.2 (fun hmem => absurd (hfresh _ hmem) (Nat.lt_irrefl _))]
      simp

/-- Witness for the claim-C1 theorem: the reachable bus after three
pushes, subscribing with `last_event_id = 1`. -/
theorem replay_claim_witness :
    Reachable (runFull (pushTrace 3)).1
    ∧ ((runFull (pushTrace 3)).1.subscribe 1).1.mailbox
          ((runFull (pushTrace 3)).1.subscribe 1).2
        = some ((runFull (pushTrace 3)).1.history.filter (fun e => 1 < e.1))
    ∧ ((runFull (pushTrace 3)).1.subscribe 1).2
        ∈ ((runFull (pushTrace 3)).1.subscribe 1).1.subscribers.map (fun p => p.1) := by
  have hre : Reachable (runFull (pushTrace 3)).1 := ⟨pushTrace 3, rfl⟩
  exact ⟨hre, (replay_claim _ 1 hre).1, (replay_claim _ 1 hre).2.2.1⟩

/-- Claim C4 (code bug in the source): `push` can raise out of
publish.  At the payload `{(1, 2): "x"}` — a dict with a tuple key —
CPython's `json.dumps(data, default=str)` raises `TypeError`
(`default` is applied only to unencodable values, never to keys), and
`EventBus.push`/`push_event` wrap the dumps call in no handler, so
the exception propagates to the producer, contradicting "push returns
without raising to the caller" (which matches the spec's stated
intent, "must not raise out of publish"). -/
theorem push_raises_on_bad_key :
    push_event "status" (PyVal.pyDict [(PyKey.kTuple, PyVal.pyStr "x")]) EventBus.new
      = Except.error "keys must be str, int, float, bool or None" := rfl

theorem getLast?_drop_concat {α : Type} (l : List α) (a : α) (k : Nat) (hk : k ≤ l.length) :
    ((l ++ [a]).drop k).getLast? = some a := by
  rw [List.drop_append_of_le_length hk, List.getLast?_concat]

/-- Claim C5: a publish with a serializable payload never fails,
appends the new record to the history, leaves every full mailbox
(512 pending records) untouched — the record is silently dropped for
exactly those subscribers — and enqueues the record exactly once into
any mailbox with spare capacity (the freshness hypothesis, that
pending ids predate the new id, holds in every reachable state by
`BusInv.mail_lt`). -/
theorem full_mailbox_claim (bus : EventBus) (ty : String) (d : PyVal) (j : String)
    (c : Nat) (m : List Event)
    (hd : dumps d = .ok j) (hm : bus.mailbox c = some m) :
    bus.push ty d = .ok (bus.pushRecord ty j)
    ∧ (bus.pushRecord ty j).history.getLast? = some (bus.nextId, ty, j)
    ∧ (¬ m.length < 512 → (bus.pushRecord ty j).mailbox c = some m)
    ∧ (m.length < 512 →
        (bus.pushRecord ty j).mailbox c = some (m ++ [(bus.nextId, ty, j)])
        ∧ ((∀ e ∈ m, e.1 < bus.nextId) →
            (m ++ [(bus.nextId, ty, j)]).count (bus.nextId, ty, j) = 1)) := by
  refine ⟨?_, ?_, ?_, ?_⟩
  · have hpush : bus.push ty d = (match dumps d with
        | .ok dj => .ok (bus.pushRecord ty dj)
        | .error e => .error e) := rfl
    rw [hpush, hd]
  · have hhist : (bus.pushRecord ty j).history =
        (if HISTORY_SIZE < (bus.history ++ [(bus.nextId, ty, j)]).length
          then (bus.history ++ [(bus.nextId, ty, j)]).drop
            ((bus.history ++ [(bus.nextId, ty, j)]).length - HISTORY_SIZE)
          else bus.history ++ [(bus.nextId, ty, j)]) := rfl
    rw [hhist]
    split
    · exact getLast?_drop_concat _ _ _
        (by simp only [List.length_append, List.length_cons, List.length_nil, HISTORY_SIZE]; omega)
    · exact List.getLast?_concat _
  · intro hfull
    rw [mailbox_pushRecord, hm]
    have hQ : ¬ m.length < QUEUE_MAXSIZE := hfull
    simp [hQ]
  · intro hsp
    refine ⟨?_, ?_⟩
    · rw [mailbox_pushRecord, hm]
      have hQ : m.length < QUEUE_MAXSIZE := hsp
      simp [hQ]
    · intro hfresh
      rw [List.count_append,
        List.count_eq_zero.2 (fun hmem => absurd (hfresh _ hmem) (Nat.lt_irrefl _))]
      simp

/-- Witness for the claim-C5 theorem: `fullBus` has a full mailbox
(channel 0, 512 pending) and an empty one (channel 1); one publish
succeeds, skips channel 0 and delivers exactly once to channel 1. -/
theorem full_mailbox_claim_witness :
    dumps PyVal.pyNone = .ok "null"
    ∧ fullBus.mailbox 0 = some (List.replicate 512 (0, "t", "0"))
    ∧ fullBus.mailbox 1 = some []
    ∧ fullBus.push "t" PyVal.pyNone = .ok (fullBus.pushRecord "t" "null")
    ∧ (fullBus.pushRecord "t" "null").mailbox 0 = some (List.replicate 512 (0, "t", "0"))
    ∧ (fullBus.pushRecord "t" "null").mailbox 1 = some ([] ++ [(1, "t", "null")])
    ∧ (([] : List Event) ++ [(1, "t", "null")]).count (1, "t", "null") = 1 := by
  have hd : dumps PyVal.pyNone = .ok "null" := rfl
  have hm0 : fullBus.mailbox 0 = some (List.replicate 512 ((0 : Nat), "t", "0")) := rfl
  have hm1 : fullBus.mailbox 1 = some [] := rfl
  have hfull : ¬ (List.replicate 512 ((0 : Nat), "t", "0") : List Event).length < 512 := by simp
  have hsp : ([] : List Event).length < 512 := by simp
  obtain ⟨ha, _, hc, _⟩ := full_mailbox_claim fullBus "t" PyVal.pyNone "null" 0 _ hd hm0
  obtain ⟨_, _, _, he⟩ := full_mailbox_claim fullBus "t" PyVal.pyNone "null" 1 _ hd hm1
  exact ⟨hd, hm0, hm1, ha, hc hfull, (he hsp).1, (he hsp).2 (by simp)⟩

theorem startScan_some (bindOk : Nat → Bool) :
    ∀ (l : List Nat) (s s' : ServerState) (p : Nat) (effs : List Effect),
      startScan bindOk l s = (s', some p, effs) → s' = ⟨some p, p⟩ := by
  intro l
  induction l with
  | nil =>
      intro s s' p effs h
      simp [startScan] at h
  | cons q qs ih =>
      intro s s' p effs h
      unfold startScan at h
      by_cases hb : bindOk q
      · rw [if_pos hb] at h
        simp only [Prod.mk.injEq] at h
        obtain ⟨h1, h2, _⟩ := h
        rw [← h1, Option.some.inj h2]
      · rw [if_neg hb] at h
        simp only [Prod.mk.injEq] at h
        obtain ⟨h1, h2, _⟩ := h
        exact ih s s' p (startScan bindOk qs s).2.2 (by rw [← h1, ← h2])

/-- Claim C6: once a `start` call has returned a port, every further
`start` call (with any port range) returns the same port, changes no
state, and performs no effects — no bind attempt, no listener, no
thread, no timer. -/
theorem idempotent_start_claim (bindOk : Nat → Bool) (ps pe ps2 pe2 : Nat)
    (s s' : ServerState) (p : Nat) (effs : List Effect)
    (h : start bindOk ps pe s = (s', some p, effs)) :
    s'.port = p ∧ start bindOk ps2 pe2 s' = (s', some p, []) := by
  unfold start at h
  by_cases hs : s.server.isSome
  · rw [if_pos hs] at h
    simp only [Prod.mk.injEq] at h
    obtain ⟨h1, h2, _⟩ := h
    have hp := Option.some.inj h2
    rw [← h1]
    refine ⟨hp, ?_⟩
    unfold start
    rw [if_pos hs, hp]
  · rw [if_neg hs] at h
    have hs' : s' = ⟨some p, p⟩ := startScan_some bindOk _ s s' p effs h
    subst hs'
    refine ⟨rfl, ?_⟩
    unfold start
    simp

/-- Witness for the claim-C6 theorem: a concrete first start binds
5111; a second call with a different range returns 5111 again with no
effects. -/
theorem idempotent_start_claim_witness :
    start (fun _ => true) 5111 5111 ⟨none, 0⟩
      = (⟨some 5111, 5111⟩, some 5111,
         [Effect.bindAttempt "127.0.0.1" 5111, Effect.listenerOpened "127.0.0.1" 5111,
          Effect.serveThreadStarted 5111, Effect.browserTimerScheduled 5111])
    ∧ (ServerState.mk (some 5111) 5111).port = 5111
    ∧ start (fun _ => true) 5200 5210 ⟨some 5111, 5111⟩ = (⟨some 5111, 5111⟩, some 5111, []) := by
  have h : start (fun _ => true) 5111 5111 ⟨none, 0⟩
      = (⟨some 5111, 5111⟩, some 5111,
         [Effect.bindAttempt "127.0.0.1" 5111, Effect.listenerOpened "127.0.0.1" 5111,
          Effect.serveThreadStarted 5111, Effect.browserTimerScheduled 5111]) := rfl
  obtain ⟨h1, h2⟩ := idempotent_start_claim (fun _ => true) 5111 5111 5200 5210 _ _ 5111 _ h
  exact ⟨h, h1, h2⟩

theorem startScan_all_fail (bindOk : Nat → Bool) :
    ∀ (l : List Nat) (s : ServerState), (∀ p ∈ l, bindOk p = false) →
      startScan bindOk l s = (s, none, l.map (fun p => Effect.bindAttempt "127.0.0.1" p)) := by
  intro l
  induction l with
  | nil => intro s _; rfl
  | cons q qs ih =>
      intro s hall
      unfold startScan
      rw [if_neg (by rw [hall q (List.mem_cons_self q qs)]; simp)]
      rw [ih s (fun p hp => hall p (List.mem_cons_of_mem _ hp))]
      rfl

/-- Claim C7: with the server unstarted and every port in the range
occupied, `start` attempts each port of the ascending range exactly
once (each attempt an `OSError`), changes no state, and returns the
distinct failure value `None` — a total function result, neither an
exception nor a hang. -/
theorem port_exhaustion_claim (bindOk : Nat → Bool) (ps pe : Nat) (s : ServerState)
    (h0 : s.server = none)
    (h1 : ∀ p ∈ List.range' ps (pe + 1 - ps), bindOk p = false) :
    start bindOk ps pe s
      = (s, none,
         (List.range' ps (pe + 1 - ps)).map (fun p => Effect.bindAttempt "127.0.0.1" p)) := by
  unfold start
  rw [if_neg (by rw [h0]; simp)]
  exact startScan_all_fail bindOk _ s h1

/-- Witness for the claim-C7 theorem on the concrete range
5111..5112 with every bind failing. -/
theorem port_exhaustion_claim_witness :
    (ServerState.mk none 0).server = none
    ∧ start (fun _ => false) 5111 5112 ⟨none, 0⟩
      = (⟨none, 0⟩, none,
         (List.range' 5111 (5112 + 1 - 5111)).map (fun p => Effect.bindAttempt "127.0.0.1" p)) := by
  exact ⟨rfl, port_exhaustion_claim (fun _ => false) 5111 5112 ⟨none, 0⟩ rfl (fun p _ => rfl)⟩

theorem startScan_listener (bindOk : Nat → Bool) :
    ∀ (l : List Nat) (s s' : ServerState) (p : Nat) (effs : List Effect),
      startScan bindOk l s = (s', some p, effs) →
      effs.count (Effect.listenerOpened "127.0.0.1" p) = 1
      ∧ (∀ hst q, Effect.listenerOpened hst q ∈ effs → hst = "127.0.0.1" ∧ q = p)
      ∧ (∀ hst q, Effect.bindAttempt hst q ∈ effs → hst = "127.0.0.1") := by
  intro l
  induction l with
  | nil =>
      intro s s' p effs h
      simp [startScan] at h
  | cons a as ih =>
      intro s s' p effs h
      unfold startScan at h
      by_cases hb : bindOk a
      · rw [if_pos hb] at h
        simp only [Prod.mk.injEq] at h
        obtain ⟨_, h2, h3⟩ := h
        have hap : a = p := Option.some.inj h2
        subst hap
        rw [← h3]
        refine ⟨?_, ?_, ?_⟩
        · simp [List.count_cons]
        · intro hst q hmem
          simp only [List.mem_cons, List.not_mem_nil, or_false] at hmem
          rcases hmem with h' | h' | h' | h'
          · exact Effect.noConfusion h'
          · injection h' with hh hq
            exact ⟨hh, hq⟩
          · exact Effect.noConfusion h'
          · exact Effect.noConfusion h'
        · intro hst q hmem
          simp only [List.mem_cons, List.not_mem_nil, or_false] at hmem
          rcases hmem with h' | h' | h' | h'
          · injection h' with hh hq
          · exact Effect.noConfusion h'
          · exact Effect.noConfusion h'
          · exact Effect.noConfusion h'
      · rw [if_neg hb] at h
        simp only [Prod.mk.injEq] at h
        obtain ⟨h1, h2, h3⟩ := h
        obtain ⟨c1, c2, c3⟩ := ih s s' p (startScan bindOk as s).2.2 (by rw [← h1, ← h2])
        rw [← h3]
        refine ⟨?_, ?_, ?_⟩
        · simp [List.count_cons, c1]
        · intro hst q hmem
          rcases List.mem_cons.1 hmem with h' | h'
          · exact absurd h' (by simp)
          · exact c2 hst q h'
        · intro hst q hmem
          rcases List.mem_cons.1 hmem with h' | h'
          · injection h' with hh hq
          · exact c3 hst q h'

/-- Claim C10: every fresh successful `start` opens exactly one
listener, and it is bound to the loopback host `"127.0.0.1"` (as is
every bind attempt), so the dashboard is reachable only from the
local host.  The spec configures only a port range and never states
the bind address. -/
theorem loopback_bind_claim (bindOk : Nat → Bool) (ps pe : Nat) (s s' : ServerState)
    (p : Nat) (effs : List Effect)
    (h0 : s.server = none)
    (h : start bindOk ps pe s = (s', some p, effs)) :
    effs.count (Effect.listenerOpened "127.0.0.1" p) = 1
    ∧ (∀ hst q, Effect.listenerOpened hst q ∈ effs → hst = "127.0.0.1" ∧ q = p)
    ∧ (∀ hst q, Effect.bindAttempt hst q ∈ effs → hst = "127.0.0.1") := by
  unfold start at h
  rw [if_neg (by rw [h0]; simp)] at h
  exact startScan_listener bindOk _ s s' p effs h

/-- Witness for the claim-C10 theorem: with ports 5111 occupied and
5112 free, `start` opens exactly one loopback listener on 5112. -/
theorem loopback_bind_claim_witness :
    (ServerState.mk none 0).server = none
    ∧ start (fun q => q == 5112) 5111 5112 ⟨none, 0⟩
        = (⟨some 5112, 5112⟩, some 5112,
           [Effect.bindAttempt "127.0.0.1" 5111, Effect.bindAttempt "127.0.0.1" 5112,
            Effect.listenerOpened "127.0.0.1" 5112, Effect.serveThreadStarted 5112,
            Effect.browserTimerScheduled 5112])
    ∧ ([Effect.bindAttempt "127.0.0.1" 5111, Effect.bindAttempt "127.0.0.1" 5112,
        Effect.listenerOpened "127.0.0.1" 5112, Effect.serveThreadStarted 5112,
        Effect.browserTimerScheduled 5112].count (Effect.listenerOpened "127.0.0.1" 5112)) = 1 := by
  have h : start (fun q => q == 5112) 5111 5112 ⟨none, 0⟩
      = (⟨some 5112, 5112⟩, some 5112,
         [Effect.bindAttempt "127.0.0.1" 5111, Effect.bindAttempt "127.0.0.1" 5112,
          Effect.listenerOpened "127.0.0.1" 5112, Effect.serveThreadStarted 5112,
          Effect.browserTimerScheduled 5112]) := rfl
  exact ⟨rfl, h, (loopback_bind_claim (fun q => q == 5112) 5111 5112 _ _ 5112 _ rfl h).1⟩

/-- Counterexample to claim C8 as stated: the request path
`/eventsx` is neither a static page path nor the event stream
endpoint (in the spec's sense: `/events`, optionally with a query
string), yet the handler serves it the event stream rather than a
not-found response, because the code routes on
`self.path.startswith("/events")`. -/
theorem routing_claim_counterexample :
    do_GET "/eventsx".data = Route.eventStream
    ∧ specEventStreamPath "/eventsx".data = false
    ∧ "/eventsx".data ≠ "/".data
    ∧ "/eventsx".data ≠ "/index.html".data
    ∧ Route.eventStream ≠ Route.notFound := by
  refine ⟨by decide, by decide, by decide, by decide, by decide⟩

/-- Claim C8 (amended): the handler serves exactly two families of
GET paths — `/` and `/index.html` yield the static page, and any path
beginning with `/events` (not only the exact endpoint) yields the
event stream; every other path yields a not-found response. -/
theorem routing_claim (p : List Char)
    (h1 : p ≠ "/".data) (h2 : p ≠ "/index.html".data)
    (h3 : startsWithChars p "/events".data = false) :
    do_GET p = Route.notFound
    ∧ do_GET "/".data = Route.page
    ∧ do_GET "/index.html".data = Route.page
    ∧ (∀ q : List Char, startsWithChars q "/events".data = true →
        q ≠ "/".data → q ≠ "/index.html".data → do_GET q = Route.eventStream) := by
  refine ⟨?_, by decide, by decide, ?_⟩
  · unfold do_GET
    rw [if_neg (by simp [h1, h2]), if_neg (by simp [h3])]
  · intro q hq hq1 hq2
    unfold do_GET
    rw [if_neg (by simp [hq1, hq2]), if_pos hq]

/-- Witness for the claim-C8 theorem at the concrete path `/foo`. -/
theorem routing_claim_witness :
    "/foo".data ≠ "/".data
    ∧ "/foo".data ≠ "/index.html".data
    ∧ startsWithChars "/foo".data "/events".data = false
    ∧ do_GET "/foo".data = Route.notFound := by
  exact ⟨by decide, by decide, by decide,
    (routing_claim "/foo".data (by decide) (by decide) (by decide)).1⟩

theorem sseLoop_map_fst (c : Nat) :
    ∀ (sched : List SSEStep) (bus : EventBus),
      ((sseLoop c sched bus).1.subscribers.map (fun p => p.1))
        = bus.subscribers.map (fun p => p.1) := by
  intro sched
  induction sched with
  | nil => intro bus; rfl
  | cons step rest ih =>
      intro bus
      cases step with
      | pub ty j =>
          rw [show sseLoop c (SSEStep.pub ty j :: rest) bus
              = sseLoop c rest (bus.pushRecord ty j) from rfl, ih, map_fst_pushRecord]
      | recv wok =>
          cases wok
          · rw [show sseLoop c (SSEStep.recv false :: rest) bus
                = (bus.dequeue c, some ExitReason.disconnected) from rfl]
            exact map_fst_dequeue bus c
          · rw [show sseLoop c (SSEStep.recv true :: rest) bus
                = sseLoop c rest (bus.dequeue c) from rfl, ih, map_fst_dequeue]
      | timedOut wok =>
          cases wok
          · rfl
          · rw [show sseLoop c (SSEStep.timedOut true :: rest) bus
                = sseLoop c rest bus from rfl, ih]
      | raiseOther => rfl

theorem serve_sse_eq (sched : List SSEStep) (k : Nat) (bus : EventBus) :
    serve_sse sched k bus
      = match (sseLoop (bus.subscribe k).2 sched (bus.subscribe k).1).2 with
        | some reason =>
            ((sseLoop (bus.subscribe k).2 sched (bus.subscribe k).1).1.unsubscribe
                (bus.subscribe k).2,
             some reason, (bus.subscribe k).2)
        | none =>
            ((sseLoop (bus.subscribe k).2 sched (bus.subscribe k).1).1,
             none, (bus.subscribe k).2) := rfl

/-- Claim C9: whenever the delivery loop exits — data write failure,
keepalive write failure, or any other exception raised by an
iteration — the `finally:` block runs `unsubscribe` on the loop's
channel before the handler returns: the final registry equals the
registry from before the subscribe (every other channel kept) and the
loop's channel is absent from it.  The freshness hypothesis on
registered channel ids holds in every reachable state
(`BusInv.chan_lt`). -/
theorem sse_cleanup_claim (sched : List SSEStep) (k : Nat) (bus : EventBus)
    (hc : ∀ p ∈ bus.subscribers, p.1 < bus.nextChan)
    (r : ExitReason)
    (hexit : (serve_sse sched k bus).2.1 = some r) :
    ((serve_sse sched k bus).1.subscribers.map (fun p => p.1))
        = bus.subscribers.map (fun p => p.1)
    ∧ (serve_sse sched k bus).2.2
        ∉ ((serve_sse sched k bus).1.subscribers.map (fun p => p.1)) := by
  rw [serve_sse_eq] at hexit ⊢
  revert hexit
  cases hl : (sseLoop (bus.subscribe k).2 sched (bus.subscribe k).1).2 with
  | none =>
      intro hexit
      exact absurd hexit (by simp)
  | some reason =>
      intro _
      have hloop := sseLoop_map_fst (bus.subscribe k).2 sched (bus.subscribe k).1
      have hsubcids : (bus.subscribe k).1.subscribers.map (fun p => p.1)
          = bus.subscribers.map (fun p => p.1) ++ [bus.nextChan] := by
        have hs : (bus.subscribe k).1.subscribers
            = bus.subscribers ++ [(bus.nextChan, bus.history.filter (fun e => k < e.1))] := rfl
        rw [hs, List.map_append]
        rfl
      have hnotin : bus.nextChan ∉ bus.subscribers.map (fun p => p.1) := by
        intro hmem
        obtain ⟨q, hq, hq2⟩ := List.mem_map.1 hmem
        exact absurd (hc q hq) (by rw [hq2]; omega)
      have hfinal : (((sseLoop (bus.subscribe k).2 sched (bus.subscribe k).1).1.unsubscribe
            (bus.subscribe k).2).subscribers.map (fun p => p.1))
          = bus.subscribers.map (fun p => p.1) :=
        map_fst_removeFirst _ _ _ (hloop.trans hsubcids) hnotin
      refine ⟨hfinal, ?_⟩
      rw [hfinal]
      exact hnotin

/-- Witness for the claim-C9 theorem: a keepalive write failure on a
fresh bus exits the loop and leaves the registry without the loop's
channel. -/
theorem sse_cleanup_claim_witness :
    (∀ p ∈ EventBus.new.subscribers, p.1 < EventBus.new.nextChan)
    ∧ (serve_sse [SSEStep.timedOut false] 0 EventBus.new).2.1 = some ExitReason.disconnected
    ∧ (serve_sse [SSEStep.timedOut false] 0 EventBus.new).2.2
        ∉ ((serve_sse [SSEStep.timedOut false] 0 EventBus.new).1.subscribers.map
              (fun p => p.1)) := by
  have hc : ∀ p ∈ EventBus.new.subscribers, p.1 < EventBus.new.nextChan := by
    intro p hp
    simp [EventBus.new] at hp
  have hexit : (serve_sse [SSEStep.timedOut false] 0 EventBus.new).2.1
      = some ExitReason.disconnected := rfl
  exact ⟨hc, hexit,
    (sse_cleanup_claim [SSEStep.timedOut false] 0 EventBus.new hc ExitReason.disconnected hexit).2⟩
